import Mathlib

/-!
Verification development for the `nifti_dynamic` repository.

The Python sources (`nifti_dynamic/aorta_rois.py`, `nifti_dynamic/patlak.py`)
are shallowly embedded below.  3-D volumes are represented as total functions
`Nat → Nat → Nat → _` together with explicit dimensions `nx ny nz`; machine
floats are modelled by exact rationals; fallible code returns `Except`.
-/

namespace NiftiDynamic

/-! ### Basic list utilities (sorting, medians, filters) -/

/-- Insert a natural number into a sorted list (insertion sort step). -/
def insertNat (a : Nat) : List Nat → List Nat
  | [] => [a]
  | b :: t => if a ≤ b then a :: b :: t else b :: insertNat a t

/-- Insertion sort on naturals, used to model the sorting inside
`scipy.ndimage.median_filter` on an integer signal. -/
def sortNat : List Nat → List Nat
  | [] => []
  | a :: t => insertNat a (sortNat t)

/-- Insert a rational into a sorted list. -/
def insertRat (a : ℚ) : List ℚ → List ℚ
  | [] => [a]
  | b :: t => if a ≤ b then a :: b :: t else b :: insertRat a t

/-- Insertion sort on rationals, used to model the sorting inside
`numpy.median` / `numpy.ma.median`. -/
def sortRat : List ℚ → List ℚ
  | [] => []
  | a :: t => insertRat a (sortRat t)

/-- Model of `numpy.median` on a 1-D array of floats: middle element for an
odd count, the average of the two middle elements for an even count.
`numpy` returns NaN on an empty selection; this model returns `0` and
theorems about medians assume a nonempty selection. -/
def npMedian (l : List ℚ) : ℚ :=
  let s := sortRat l
  let m := l.length
  if m = 0 then 0
  else if m % 2 = 1 then s.getD (m / 2) 0
  else (s.getD (m / 2 - 1) 0 + s.getD (m / 2) 0) / 2

/-- Boundary handling of `scipy.ndimage` filters in the default
`mode=reflect` ((d c b a | a b c d | d c b a)): reflect an out-of-range
signed index into `[0, n)`. -/
def reflectIndex (n : Nat) (i : Int) : Nat :=
  if n = 0 then 0
  else
    let m := (i % (2 * (n : Int))).toNat
    if m < n then m else 2 * n - 1 - m

/-- The window of 5 samples centred at `i` (offsets `-2..2`, reflected at the
array ends) used by `scipy.ndimage.median_filter(array, size=5)`. -/
def window5 (l : List Nat) (i : Nat) : List Nat :=
  (List.range 5).map fun j => l.getD (reflectIndex l.length ((i : Int) + (j : Int) - 2)) 0

/-- Median of five integers: sort and take the element at index `5 / 2 = 2`,
as `scipy.ndimage.median_filter` does for an odd window on an integer array. -/
def median5 (l : List Nat) : Nat := (sortNat l).getD 2 0

/-- Model of `scipy.ndimage.median_filter(array, size=5)` on a 1-D integer
array with the default `reflect` boundary mode. -/
def medianFilter5 (l : List Nat) : List Nat :=
  (List.range l.length).map fun i => median5 (window5 l i)

/-! ### Connected-component labeling (`scipy.ndimage.label`)

`scipy.ndimage.label` with the default structuring element uses
face-connectivity: 6-connectivity in 3-D, which restricted to a 1-voxel-thick
volume is exactly the 4-connectivity used on 2-D slices.  The labeling is
modelled by a scan over all cells in C order launching a fuelled flood fill at
every yet-unlabelled foreground cell. -/

/-- All cell coordinates of an `nx × ny × nz` volume in C (row-major) order. -/
def allCells (nx ny nz : Nat) : List (Nat × Nat × Nat) :=
  (List.range nx).flatMap fun x =>
    (List.range ny).flatMap fun y =>
      (List.range nz).map fun z => (x, y, z)

/-- All cell coordinates of an `nx × ny` slice in C order. -/
def cells2D (nx ny : Nat) : List (Nat × Nat) :=
  (List.range nx).flatMap fun x => (List.range ny).map fun y => (x, y)

/-- The 6 face-neighbours of a voxel.  Coordinates use truncated `Nat`
subtraction, so a cell on a zero boundary lists itself as a neighbour; such a
self-neighbour is already labelled when reached and changes nothing. -/
def nbrs6 (v : Nat × Nat × Nat) : List (Nat × Nat × Nat) :=
  [(v.1 + 1, v.2.1, v.2.2), (v.1 - 1, v.2.1, v.2.2),
   (v.1, v.2.1 + 1, v.2.2), (v.1, v.2.1 - 1, v.2.2),
   (v.1, v.2.1, v.2.2 + 1), (v.1, v.2.1, v.2.2 - 1)]

/-- Foreground predicate for labeling: inside the volume bounds and nonzero. -/
def cellMask (nx ny nz : Nat) (f : Nat → Nat → Nat → Nat) (v : Nat × Nat × Nat) : Bool :=
  decide (v.1 < nx) && decide (v.2.1 < ny) && decide (v.2.2 < nz) && (f v.1 v.2.1 v.2.2 != 0)

/-- Fuelled depth-first flood fill: pop a cell from the stack; if it is
foreground and unlabelled, give it label `cur` and push its neighbours. -/
def floodFill (mask : Nat × Nat × Nat → Bool) (cur : Nat) :
    Nat → List (Nat × Nat × Nat) → (Nat × Nat × Nat → Nat) → (Nat × Nat × Nat → Nat)
  | 0, _, lab => lab
  | _ + 1, [], lab => lab
  | fuel + 1, v :: stack, lab =>
    if mask v && (lab v == 0) then
      floodFill mask cur fuel (nbrs6 v ++ stack) (fun w => if w = v then cur else lab w)
    else
      floodFill mask cur fuel stack lab

/-- Scan the cell list in order; each time an unlabelled foreground cell is
met, increment the component count and flood-fill its component. -/
def labelScan (mask : Nat × Nat × Nat → Bool) (fuel : Nat) :
    List (Nat × Nat × Nat) → Nat × (Nat × Nat × Nat → Nat) → Nat × (Nat × Nat × Nat → Nat)
  | [], st => st
  | v :: rest, (cnt, lab) =>
    if mask v && (lab v == 0) then
      labelScan mask fuel rest (cnt + 1, floodFill mask (cnt + 1) fuel [v] lab)
    else
      labelScan mask fuel rest (cnt, lab)

/-- Model of `scipy.ndimage.label` (default face-connectivity structure):
returns the number of connected components together with the label map.
The fuel `6 * (nx*ny*nz) + 8` strictly exceeds the total number of stack
operations any flood fill can perform, so every flood runs to completion. -/
def labelVolume (nx ny nz : Nat) (f : Nat → Nat → Nat → Nat) :
    Nat × (Nat × Nat × Nat → Nat) :=
  labelScan (cellMask nx ny nz f) (6 * (nx * ny * nz) + 8) (allCells nx ny nz)
    (0, fun _ => 0)

/-! ### `aorta_rois.py`: boundary detection -/

/-- Model of `count_connected_components(slice_2d)`: number of 4-connected components
of a 2-D slice, realised as 6-connected labeling of a 1-voxel-thick volume. -/
def count_connected_components (nx ny : Nat) (slice2d : Nat → Nat → Nat) : Nat :=
  (labelVolume nx ny 1 (fun x y _ => slice2d x y)).1

/-- Model of `count_axial_components(volume)`: per-axial-slice component counts. -/
def count_axial_components (nx ny nz : Nat) (f : Nat → Nat → Nat → Nat) : List Nat :=
  (List.range nz).map fun z => count_connected_components nx ny (fun x y => f x y z)

/-- Positions where `pattern` occurs contiguously in `array`, the model of
`np.where(np.all(sliding_window_view(array, len(pattern)) == pattern, axis=1))[0]`.
(For an array shorter than the pattern there are no windows; `numpy` raises on
such input, and `find_pattern_transition` errors there as well.) -/
def matchPositions (array pattern : List Nat) : List Nat :=
  (List.range (array.length + 1 - pattern.length)).filter fun i =>
    (List.range pattern.length).all fun j => array.getD (i + j) 0 == pattern.getD j 0

/-- Model of `find_pattern_transition(array, pattern)`: the unique match position
offset by half the pattern length; raises `ValueError` (modelled as
`Except.error`) when the number of matches is not exactly one. -/
def find_pattern_transition (array pattern : List Nat) : Except String Nat :=
  match matchPositions array pattern with
  | [i] => .ok (i + pattern.length / 2)
  | l => .error ("Expected 1 match, found " ++ toString l.length)

/-- Model of `find_aortic_segments_boundaries(aorta_volume)`: cap per-slice component
counts at 2, median-filter with window 5, then locate the unique
`[1,1,2,2]` and `[2,2,1,1]` transitions. -/
def find_aortic_segments_boundaries (nx ny nz : Nat) (f : Nat → Nat → Nat → Nat) :
    Except String (Nat × Nat) :=
  let islands := medianFilter5 ((count_axial_components nx ny nz f).map fun c => min c 2)
  match find_pattern_transition islands [1, 1, 2, 2],
        find_pattern_transition islands [2, 2, 1, 1] with
  | .ok s, .ok c => .ok (s, c)
  | .error e, _ => .error e
  | _, .error e => .error e

/-! ### `aorta_rois.py`: anatomical segmentation -/

/-- The pre-curve sub-volume: `aorta_seg[..., ix_curve:] = 0`. -/
def preCurve (aorta : Nat → Nat → Nat → Nat) (ixc : Nat) : Nat → Nat → Nat → Nat :=
  fun x y z => if ixc ≤ z then 0 else aorta x y z

/-- Model of `np.sum(labeled == k)` over the volume. -/
def countLabelVal (nx ny nz : Nat) (lab : Nat × Nat × Nat → Nat) (k : Nat) : Nat :=
  ((allCells nx ny nz).filter fun v => lab v == k).length

/-- The size-based identity assignment of `segment_aorta`:
`mapping = [0, DESCENDING, ASCENDING]` when component 1 is the larger
(`np.sum(labeled == 1) > np.sum(labeled == 2)`), `[0, ASCENDING, DESCENDING]`
otherwise, indexed by the component label. -/
def segMapping (s1 s2 : Nat) (l : Nat) : Nat :=
  if s2 < s1 then [0, 3, 1].getD l 0 else [0, 1, 3].getD l 0

/-- The body of `segment_aorta` once the boundary indices are known: label the
pre-curve components, map the larger one to DESCENDING (3) and the smaller to
ASCENDING (1), overwrite slices at or beyond `ix_curve` with TOP (2), and
relabel DESCENDING voxels strictly below `ix_start` as DESCENDING_BOTTOM (4).
(The source indexes a 3-entry `mapping` array with the component label;
labels above 2 would raise `IndexError` in `numpy` and are mapped to 0 here,
outside the two-component regime the theorems assume.) -/
def segmentCore (nx ny nz : Nat) (aorta : Nat → Nat → Nat → Nat) (ixs ixc : Nat) :
    Nat → Nat → Nat → Nat :=
  let lab := (labelVolume nx ny nz (preCurve aorta ixc)).2
  let s1 := countLabelVal nx ny nz lab 1
  let s2 := countLabelVal nx ny nz lab 2
  fun x y z =>
    let v2 := if ixc ≤ z then aorta x y z * 2 else segMapping s1 s2 (lab (x, y, z))
    if v2 = 3 ∧ z < ixs then 4 else v2

/-- Model of `segment_aorta(aorta)`: detect the boundaries, then partition the mask
into the four `AortaSegment` codes. -/
def segment_aorta (nx ny nz : Nat) (aorta : Nat → Nat → Nat → Nat) :
    Except String (Nat → Nat → Nat → Nat) :=
  (find_aortic_segments_boundaries nx ny nz aorta).map fun p =>
    segmentCore nx ny nz aorta p.1 p.2

/-! ### `aorta_rois.py`: cylindrical VOI placement -/

/-- Python `int()` applied to a float: truncation toward zero. -/
def pyInt (q : ℚ) : ℤ := if q < 0 then -(⌊-q⌋) else ⌊q⌋

/-- Model of `np.prod(voxel_size)`: physical volume of one voxel in mm³. -/
def voxelVolume (vs : ℚ × ℚ × ℚ) : ℚ := vs.1 * vs.2.1 * vs.2.2

/-- Source line `target_voxels = int(volume_ml * 1000 / voxel_volume)`. -/
def targetVoxels (vs : ℚ × ℚ × ℚ) (volume_ml : ℚ) : ℤ :=
  pyInt (volume_ml * 1000 / voxelVolume vs)

/-- Source line `n_slices_needed = max(1, int(np.ceil(target_voxels / cylinder_width**2)))`. -/
def nSlicesNeeded (vs : ℚ × ℚ × ℚ) (volume_ml : ℚ) (W : Nat) : ℤ :=
  max 1 ⌈(targetVoxels vs volume_ml : ℚ) / ((W : ℚ) ^ 2)⌉

/-- Follows the claim wording (C6): slice count
`max(1, ceil((V * 1000 / voxel_volume) / W^2))` with no intermediate
truncation of the target voxel count.  Stated only to be compared with
`nSlicesNeeded`, which is translated from the source. -/
def specSliceCount (vs : ℚ × ℚ × ℚ) (volume_ml : ℚ) (W : Nat) : ℤ :=
  max 1 ⌈(volume_ml * 1000 / voxelVolume vs) / ((W : ℚ) ^ 2)⌉

/-- Model of `np.argmax` on a 1-D array: index of the first occurrence of the maximum
(auxiliary recursion carrying the index of the running best). -/
def npArgmaxGo : List ℚ → Nat → Nat → ℚ → Nat
  | [], _, bi, _ => bi
  | v :: t, i, bi, bv => if bv < v then npArgmaxGo t (i + 1) i v else npArgmaxGo t (i + 1) bi bv

/-- Model of `np.argmax` on a 1-D array (0 on the empty array, on which `numpy` raises). -/
def npArgmax : List ℚ → Nat
  | [] => 0
  | v :: t => npArgmaxGo t 1 0 v

/-- Model of `scipy.ndimage.uniform_filter(arr, k)` on a 1-D float array:
moving average over the window of `k` samples at offsets `j - k/2`,
`j = 0, …, k-1`, with the default `reflect` boundary mode. -/
def uniformFilter (k : Nat) (l : List ℚ) : List ℚ :=
  (List.range l.length).map fun i =>
    (((List.range k).map fun j =>
        l.getD (reflectIndex l.length ((i : Int) + (j : Int) - ((k / 2 : Nat) : Int))) 0).sum)
      / (k : ℚ)

/-- Model of `np.ma.median(masked_pet, axis=(0,1)).filled(0)`: per-axial-slice median
of the in-zone activity values (masked voxels excluded; a fully masked slice
yields the fill value 0). -/
def medianProfile (nx ny nz : Nat) (zone : Nat → Nat → Nat → Bool)
    (pet : Nat → Nat → Nat → ℚ) : List ℚ :=
  (List.range nz).map fun z =>
    npMedian ((cells2D nx ny).filterMap fun v =>
      if zone v.1 v.2 z then some (pet v.1 v.2 z) else none)

/-- Source line `start_slice = np.argmax(uniform_filter(median_axial_uptake, n)) - n // 2`. -/
def startSlice (nx ny nz : Nat) (zone : Nat → Nat → Nat → Bool)
    (pet : Nat → Nat → Nat → ℚ) (n : Nat) : ℤ :=
  (npArgmax (uniformFilter n (medianProfile nx ny nz zone pet)) : ℤ) - ((n / 2 : Nat) : ℤ)

/-- Python `int(round(x))` on a float: round half to even, then truncate. -/
def roundHalfEven (q : ℚ) : ℤ :=
  let f := ⌊q⌋
  if q - f < 1 / 2 then f
  else if 1 / 2 < q - f then f + 1
  else if f % 2 = 0 then f else f + 1

/-- Python sequence indexing along an axis of length `m`: indices in
`[0, m)` are used directly, indices in `[-m, 0)` wrap around to the high end,
anything else raises `IndexError` (modelled as `none`). -/
def pyIndex (m : Nat) (i : ℤ) : Option Nat :=
  if 0 ≤ i ∧ i < (m : ℤ) then some i.toNat
  else if -(m : ℤ) ≤ i ∧ i < 0 then some ((m : ℤ) + i).toNat
  else none

/-- Model of `scipy.ndimage.center_of_mass` of a 2-D array: intensity-weighted mean
coordinate.  (`scipy` produces NaN on an all-zero array; division by zero
yields 0 here, and the concrete inputs of the theorems avoid that case.) -/
def centerOfMass2D (nx ny : Nat) (g : Nat → Nat → ℚ) : ℚ × ℚ :=
  let tot := ((cells2D nx ny).map fun v => g v.1 v.2).sum
  (((cells2D nx ny).map fun v => (v.1 : ℚ) * g v.1 v.2).sum / tot,
   ((cells2D nx ny).map fun v => (v.2 : ℚ) * g v.1 v.2).sum / tot)

/-- Model of `create_cylindrical_voi(aorta_segment, pet, voxel_size, volume_ml, cylinder_width)`:
choose the slice count from the target volume, centre an axial window on the
smoothed uptake peak, put one seed per window slice at the rounded in-zone
centre of mass (Python negative indices wrap to the high end of the axis; an
index outside `[-nz, nz)` raises and is modelled as producing no seed), and
dilate the seeds with a `W × W × 1` structuring element, clipped to the
array bounds. -/
def create_cylindrical_voi (nx ny nz : Nat) (zone : Nat → Nat → Nat → Bool)
    (pet : Nat → Nat → Nat → ℚ) (vs : ℚ × ℚ × ℚ) (volume_ml : ℚ) (W : Nat) :
    Nat → Nat → Nat → Bool :=
  let n := (nSlicesNeeded vs volume_ml W).toNat
  let start := startSlice nx ny nz zone pet n
  let seeds : List (Nat × Nat × Nat) := (List.range n).filterMap fun j =>
    match pyIndex nz (start + (j : ℤ)) with
    | none => none
    | some z =>
      let g : Nat → Nat → ℚ := fun x y => if zone x y z then pet x y z else 0
      let cm := centerOfMass2D nx ny g
      match pyIndex nx (roundHalfEven cm.1), pyIndex ny (roundHalfEven cm.2) with
      | some xi, some yi => some (xi, yi, z)
      | _, _ => none
  fun x y z =>
    decide (x < nx) && decide (y < ny) && decide (z < nz) &&
      seeds.any fun s =>
        s.2.2 == z &&
        decide ((s.1 : ℤ) - ((W / 2 : Nat) : ℤ) ≤ (x : ℤ)) &&
        decide ((x : ℤ) ≤ (s.1 : ℤ) + ((W - 1 - W / 2 : Nat) : ℤ)) &&
        decide ((s.2.1 : ℤ) - ((W / 2 : Nat) : ℤ) ≤ (y : ℤ)) &&
        decide ((y : ℤ) ≤ (s.2.1 : ℤ) + ((W - 1 - W / 2 : Nat) : ℤ))

/-! ### `aorta_rois.py`: PET averaging, refinement, and the VOI pipeline -/

/-- Model of `average_early_pet_frames(dpet, frame_times_start, t_threshold)`: mean of
the frames whose start time is below the threshold. -/
def average_early_pet_frames (dpet : Nat → Nat → Nat → Nat → ℚ) (times : List ℚ)
    (t_threshold : ℚ) : Nat → Nat → Nat → ℚ :=
  let nf := (times.filter fun s => s < t_threshold).length
  fun x y z => (((List.range nf).map fun k => dpet x y z k).sum) / (nf : ℚ)

/-- The activity values of the labelled (nonzero) voxels, `pet[aorta > 0]`. -/
def labeledPetVals (nx ny nz : Nat) (aorta : Nat → Nat → Nat → Nat)
    (pet : Nat → Nat → Nat → ℚ) : List ℚ :=
  (allCells nx ny nz).filterMap fun v =>
    if aorta v.1 v.2.1 v.2.2 ≠ 0 then some (pet v.1 v.2.1 v.2.2) else none

/-- Model of `refine_aorta_with_pet_uptake(aorta, pet)`: voxels whose activity is not
strictly above two-thirds of the median labelled-voxel activity are reset to
background. -/
def refine_aorta_with_pet_uptake (nx ny nz : Nat) (aorta : Nat → Nat → Nat → Nat)
    (pet : Nat → Nat → Nat → ℚ) : Nat → Nat → Nat → Nat :=
  let thr := 2 / 3 * npMedian (labeledPetVals nx ny nz aorta pet)
  fun x y z => if thr < pet x y z then aorta x y z else 0

/-- One loop iteration of `extract_aorta_vois`: for the TOP segment the
placer is called with spatial axes 1 and 2 swapped and the voxel-spacing
vector permuted accordingly, and the resulting VOI is read back through the
same swap; every other segment calls the placer directly. -/
def segmentVOI (nx ny nz : Nat) (zone : Nat → Nat → Nat → Bool)
    (pet : Nat → Nat → Nat → ℚ) (vs : ℚ × ℚ × ℚ) (volume_ml : ℚ) (W : Nat)
    (isTop : Bool) : Nat → Nat → Nat → Bool :=
  if isTop then
    fun x y z =>
      create_cylindrical_voi nx nz ny (fun a b c => zone a c b) (fun a b c => pet a c b)
        (vs.1, vs.2.2, vs.2.1) volume_ml W x z y
  else
    create_cylindrical_voi nx ny nz zone pet vs volume_ml W

/-- Model of `extract_aorta_vois(aorta_mask, affine, dpet, frame_times_start, ...)`:
average the early frames, segment and uptake-refine the aorta, read the voxel
size off the affine diagonal, then write each segment code into the output at
its VOI (segments processed in enum order 1, 2, 3, 4; later writes win). -/
def extract_aorta_vois (nx ny nz : Nat) (aorta_mask : Nat → Nat → Nat → Nat)
    (affine : Nat → Nat → ℚ) (dpet : Nat → Nat → Nat → Nat → ℚ) (times : List ℚ)
    (t_threshold volume_ml : ℚ) (W : Nat) :
    Except String ((Nat → Nat → Nat → Nat) × (Nat → Nat → Nat → Nat)) :=
  let pet40 := average_early_pet_frames dpet times t_threshold
  (segment_aorta nx ny nz aorta_mask).map fun segs0 =>
    let segs := refine_aorta_with_pet_uptake nx ny nz segs0 pet40
    let vs := (|affine 0 0|, |affine 1 1|, |affine 2 2|)
    let voiFor := fun (s : Nat) =>
      segmentVOI nx ny nz (fun x y z => segs x y z == s) pet40 vs volume_ml W (s == 2)
    let vois := fun x y z =>
      if voiFor 4 x y z then 4
      else if voiFor 3 x y z then 3
      else if voiFor 2 x y z then 2
      else if voiFor 1 x y z then 1
      else 0
    (vois, segs)

/-! ### `patlak.py`: cumulative Simpson integration and the per-chunk fit -/

/-- Integral of the interpolating quadratic through
`(0, f1), (x21, f2), (x21 + x32, f3)` over the first sub-interval
`[0, x21]`, as computed by `scipy.integrate.cumulative_simpson` for
possibly unequal sample spacings. -/
def simpsonSubIntegral (x21 x32 f1 f2 f3 : ℚ) : ℚ :=
  let x31 := x21 + x32
  x21 / 6 * ((3 - x21 / x31) * f1 + (3 + x21 * x21 / (x31 * x32) + x21 / x31) * f2
    - x21 * x21 / (x31 * x32) * f3)

/-- Cumulative sum with a prepended initial 0 (`cumulative_simpson(..., initial=0)`). -/
def cumsum0 (l : List ℚ) : List ℚ := l.scanl (fun a b => a + b) 0

/-- Model of `scipy.integrate.cumulative_simpson(y, x=x, initial=0)`:
per-sub-interval quadratic integrals (each interval integrated from the
sample triple containing it; even intervals from their leading triple, odd
intervals and the final interval from their trailing triple), cumulatively
summed behind an initial 0.  `scipy` rejects inputs with fewer than 3
samples; those are modelled as a zero output of the same length. -/
def cumulative_simpson (y x : List ℚ) : List ℚ :=
  let n := y.length
  if n < 3 then List.replicate n 0
  else
    let d := List.zipWith (fun a b => a - b) (x.drop 1) x
    let yg := fun i => y.getD i 0
    let dg := fun i => d.getD i 0
    let intH1 := fun i => simpsonSubIntegral (dg i) (dg (i + 1)) (yg i) (yg (i + 1)) (yg (i + 2))
    let intH2 := fun i => simpsonSubIntegral (dg (i + 1)) (dg i) (yg (i + 2)) (yg (i + 1)) (yg i)
    cumsum0 ((List.range (n - 1)).map fun j =>
      if j = n - 2 then intH2 (n - 3)
      else if j % 2 = 0 then intH1 j
      else intH2 (j - 1))

/-- The trailing `K` entries of a list, `l[-K:]`. -/
def lastK (K : Nat) (l : List ℚ) : List ℚ := l.drop (l.length - K)

/-- Slope of the ordinary-least-squares line of `ys` against `xs`
(`sklearn.linear_model.LinearRegression` with a single feature):
`Σ (x - x̄)(y - ȳ) / Σ (x - x̄)²`. -/
def olsSlope (xs ys : List ℚ) : ℚ :=
  let xm := xs.sum / (xs.length : ℚ)
  let ym := ys.sum / (ys.length : ℚ)
  (List.zipWith (fun a b => (a - xm) * (b - ym)) xs ys).sum
    / ((xs.map fun a => (a - xm) ^ 2).sum)

/-- Intercept of the same ordinary-least-squares fit: `ȳ - slope · x̄`. -/
def olsIntercept (xs ys : List ℚ) : ℚ :=
  ys.sum / (ys.length : ℚ) - olsSlope xs ys * (xs.sum / (xs.length : ℚ))

/-- Model of `arr.reshape(-1, arr.shape[-1])` for a C-ordered 4-D chunk of shape
`sx × sy × sz × T`: row `v` is the time series of the voxel with flat spatial
index `v`, i.e. the voxel `(v / (sy·sz), v / sz % sy, v % sz)`. -/
def patlakRows (sx sy sz T : Nat) (arr : Nat → Nat → Nat → Nat → ℚ) : List (List ℚ) :=
  (List.range (sx * sy * sz)).map fun v =>
    (List.range T).map fun k => arr (v / (sy * sz)) (v / sz % sy) (v % sz) k

/-- The `.T` transpose of the voxel × frame matrix: one row per frame. -/
def patlakCols (sx sy sz T : Nat) (arr : Nat → Nat → Nat → Nat → ℚ) : List (List ℚ) :=
  (List.range T).map fun k => (patlakRows sx sy sz T arr).map fun r => r.getD k 0

/-- Source line `Y = arr.reshape(-1, T).T[-K:] / input_fun[-K:, None]`: the trailing `K`
frame rows, each divided by the matching trailing input-function value. -/
def patlakY (sx sy sz T : Nat) (arr : Nat → Nat → Nat → Nat → ℚ)
    (input_fun : List ℚ) (K : Nat) : List (List ℚ) :=
  List.zipWith (fun row c => row.map fun a => a / c)
    ((patlakCols sx sy sz T arr).drop (T - K)) (lastK K input_fun)

/-- Source line `X = (cumulative_simpson(input_fun, x=t/60, initial=0) / input_fun)[-K:]`. -/
def patlakX (input_fun t : List ℚ) (K : Nat) : List ℚ :=
  lastK K (List.zipWith (fun a b => a / b)
    (cumulative_simpson input_fun (t.map fun s => s / 60)) input_fun)

/-- Model of `_voxel_patlak_chunk(arr, input_fun, t, n_frames_linear_regression)`.
The 4-D chunk `arr` (shape `sx × sy × sz × T`, C order) is reshaped to a
voxel × frame matrix, transposed, restricted to the trailing `K` frames and
divided row-wise by the trailing input-function values; `X` is the cumulative
Simpson integral of the input function over `t / 60` divided pointwise by the
input function, restricted to its trailing `K` samples; one OLS line is
fitted per voxel and the slopes and intercepts are reshaped back to the
spatial shape. -/
def voxel_patlak_chunk (sx sy sz T : Nat) (arr : Nat → Nat → Nat → Nat → ℚ)
    (input_fun t : List ℚ) (K : Nat) :
    List (List (List ℚ)) × List (List (List ℚ)) :=
  let X := patlakX input_fun t K
  let yCol := fun v => (patlakY sx sy sz T arr input_fun K).map fun r => r.getD v 0
  let slopes : List ℚ := (List.range (sx * sy * sz)).map fun v => olsSlope X (yCol v)
  let intercepts : List ℚ := (List.range (sx * sy * sz)).map fun v => olsIntercept X (yCol v)
  (((List.range sx).map fun xi => (List.range sy).map fun yi => (List.range sz).map fun zi =>
      slopes.getD ((xi * sy + yi) * sz + zi) 0),
   ((List.range sx).map fun xi => (List.range sy).map fun yi => (List.range sz).map fun zi =>
      intercepts.getD ((xi * sy + yi) * sz + zi) 0))

/-! ### The chunked window iterator

Modelled from the spec: `OverlappedChunkIterator` lives in
`nifti_dynamic/utils.py`, which is not among the provided sources; only its
call site in `voxel_patlak` is.  The defs below follow §4.5 of the spec. -/

/-- Modelled from the spec: the number of steps needed to cover `[0, L)`
with interior chunks of size `C`, `⌈L / C⌉`. -/
def numChunks (L C : Nat) : Nat := (L + C - 1) / C

/-- Modelled from the spec: the write range of step `i`,
`[i·C, min(L, (i+1)·C))`. -/
def chunkWriteRange (L C i : Nat) : Nat × Nat := (i * C, min L ((i + 1) * C))

/-- Modelled from the spec: the read window of step `i`,
`[max(0, i·C − B), min(L, i·C + C + B))` (truncated `Nat` subtraction is
exactly the clamp at 0). -/
def chunkReadWindow (L C B i : Nat) : Nat × Nat := (i * C - B, min L (i * C + C + B))

/-! ### Concrete inputs used by counterexamples and witnesses -/

/-- A J-shaped 3 × 1 × 15 test mask: a full-height tube at `x = 0` and a
second tube at `x = 2` spanning axial slices 5–9, so the per-slice component
counts are `[1×5, 2×5, 1×5]`. -/
def aortaJ (x y z : Nat) : Nat :=
  if y = 0 ∧ ((x = 0 ∧ z < 15) ∨ (x = 2 ∧ 5 ≤ z ∧ z ≤ 9)) then 1 else 0

/-- Identity affine: unit voxel spacing. -/
def affineId : Nat → Nat → ℚ := fun i j => if i = j then 1 else 0

/-- A dynamic PET volume with constant activity 1. -/
def dpetOnes : Nat → Nat → Nat → Nat → ℚ := fun _ _ _ _ => 1

/-- A single-column 1 × 1 × nz zone mask. -/
def zoneColumn : Nat → Nat → Nat → Bool := fun x y _ => x == 0 && y == 0

/-- Activity with its peak at axial slice 0. -/
def petPeak : Nat → Nat → Nat → ℚ := fun _ _ z => if z = 0 then 5 else 1

/-- A fully labelled 1 × 1 × 3 volume. -/
def aortaAllOnes : Nat → Nat → Nat → Nat := fun _ _ _ => 1

/-- Activity ramp 2, 3, 4 along the axial axis (median 3 over the labelled
voxels, so the threshold `2/3 · median` is exactly 2). -/
def petRamp : Nat → Nat → Nat → ℚ := fun _ _ z => 2 + (z : ℚ)

/-- The §4.5 invariant of the chunked window iterator at parameters
`L, C, B`: write ranges cover `[0, L)`, write ranges are pairwise disjoint,
and read windows never address an index outside `[0, L)`. -/
def chunkInvariant (L C B : Nat) : Prop :=
  (∀ k, k < L ↔ ∃ i, i < numChunks L C ∧
      (chunkWriteRange L C i).1 ≤ k ∧ k < (chunkWriteRange L C i).2) ∧
  (∀ i j, i < numChunks L C → j < numChunks L C → i ≠ j →
      ∀ k, (chunkWriteRange L C i).1 ≤ k ∧ k < (chunkWriteRange L C i).2 →
        ¬((chunkWriteRange L C j).1 ≤ k ∧ k < (chunkWriteRange L C j).2)) ∧
  (∀ i k, (chunkReadWindow L C B i).1 ≤ k → k < (chunkReadWindow L C B i).2 → k < L)

/-! ## Theorems -/

/-- If `i·C ≤ k < (i+1)·C` then `i = k / C`. -/
theorem chunk_index_unique {C i k : Nat} (_hC : 0 < C) (h1 : i * C ≤ k)
    (h2 : k < (i + 1) * C) : k / C = i :=
  Nat.div_eq_of_lt_le h1 h2

/-- C4: for every total length L > 0, chunk size C > 0 and border size
B ≥ 0, the chunked window iterator's write ranges `[i·C, min(L, (i+1)·C))`
partition `[0, L)` exactly, with no gaps and no overlaps, and every read
window `[max(0, i·C − B), min(L, i·C + C + B))` addresses only indices
inside `[0, L)`. -/
theorem chunk_iterator_partition (L C B : Nat) (hL : 0 < L) (hC : 0 < C) :
    chunkInvariant L C B := by
  have key : ∀ k, k < L → k / C < numChunks L C ∧ (k / C) * C ≤ k ∧ k < (k / C + 1) * C := by
    intro k hk
    have hd := Nat.div_add_mod k C
    have hm := Nat.mod_lt k hC
    have hub : k < (k / C + 1) * C := by
      have : (k / C + 1) * C = C * (k / C) + C := by ring
      omega
    refine ⟨?_, Nat.div_mul_le_self k C, hub⟩
    have h1 : k / C ≤ (L - 1) / C := Nat.div_le_div_right (by omega)
    have h2 : numChunks L C = (L - 1) / C + 1 := by
      unfold numChunks
      rw [show L + C - 1 = (L - 1) + C by omega, Nat.add_div_right _ hC]
    omega
  refine ⟨?_, ?_, ?_⟩
  · intro k
    constructor
    · intro hk
      obtain ⟨h1, h2, h3⟩ := key k hk
      exact ⟨k / C, h1, h2, lt_min hk h3⟩
    · rintro ⟨i, -, -, h3⟩
      exact lt_of_lt_of_le h3 (min_le_left _ _)
  · rintro i j hi hj hij k ⟨h1, h2⟩ ⟨h3, h4⟩
    have hkL : k < L := lt_of_lt_of_le h2 (min_le_left _ _)
    have e1 : k / C = i :=
      chunk_index_unique hC h1 (lt_of_lt_of_le h2 (min_le_right _ _))
    have e2 : k / C = j :=
      chunk_index_unique hC h3 (lt_of_lt_of_le h4 (min_le_right _ _))
    exact hij (e1 ▸ e2)
  · intro i k _ h2
    exact lt_of_lt_of_le h2 (min_le_left _ _)

/-- C4 witness: the invariant holds at the concrete parameters
L = 5, C = 2, B = 1. -/
theorem chunk_iterator_partition_witness :
    0 < 5 ∧ 0 < 2 ∧ chunkInvariant 5 2 1 :=
  ⟨by decide, by decide, chunk_iterator_partition 5 2 1 (by decide) (by decide)⟩

/-- C3: the pattern-transition search raises (`Except.error`) if and only if
the number of occurrences of the sought pattern in the signal is not exactly
one; on exactly one match it returns normally. -/
theorem find_pattern_transition_error_iff (array pattern : List Nat) :
    (∃ e, find_pattern_transition array pattern = .error e) ↔
      (matchPositions array pattern).length ≠ 1 := by
  unfold find_pattern_transition
  rcases h : matchPositions array pattern with _ | ⟨i, _ | ⟨j, t⟩⟩ <;> simp

/-- C5: `find_aortic_segments_boundaries` succeeds exactly when the smoothed
signal — per-axial-slice connected-component counts, clamped at 2 and
median-filtered with window 5 — contains exactly one match of `[1,1,2,2]`
and one of `[2,2,1,1]`, and it returns each unique match position offset by
half the pattern length, i.e. match index + 2. -/
theorem boundaries_spec (nx ny nz : Nat) (f : Nat → Nat → Nat → Nat) (s c : Nat) :
    find_aortic_segments_boundaries nx ny nz f = .ok (s, c) ↔
      (∃ i, matchPositions
          (medianFilter5 ((count_axial_components nx ny nz f).map fun k => min k 2))
          [1, 1, 2, 2] = [i] ∧ s = i + 2) ∧
      (∃ j, matchPositions
          (medianFilter5 ((count_axial_components nx ny nz f).map fun k => min k 2))
          [2, 2, 1, 1] = [j] ∧ c = j + 2) := by
  unfold find_aortic_segments_boundaries find_pattern_transition
  rcases h1 : matchPositions
      (medianFilter5 ((count_axial_components nx ny nz f).map fun k => min k 2))
      [1, 1, 2, 2] with _ | ⟨i, _ | ⟨i2, t1⟩⟩ <;>
    rcases h2 : matchPositions
        (medianFilter5 ((count_axial_components nx ny nz f).map fun k => min k 2))
        [2, 2, 1, 1] with _ | ⟨j, _ | ⟨j2, t2⟩⟩ <;>
    simp [h1, h2, eq_comm]

/-- C9: the VOI for the TOP zone is computed by the same generic placer
applied with spatial axes 1 and 2 transposed and the voxel-spacing vector
permuted to match, the result being read back through the same transposition;
every other zone calls the same placer directly. -/
theorem top_voi_transposed_placer (nx ny nz : Nat) (zone : Nat → Nat → Nat → Bool)
    (pet : Nat → Nat → Nat → ℚ) (vs : ℚ × ℚ × ℚ) (volume_ml : ℚ) (W : Nat)
    (x y z : Nat) :
    segmentVOI nx ny nz zone pet vs volume_ml W true x y z =
      create_cylindrical_voi nx nz ny (fun a b c => zone a c b) (fun a b c => pet a c b)
        (vs.1, vs.2.2, vs.2.1) volume_ml W x z y ∧
    segmentVOI nx ny nz zone pet vs volume_ml W false x y z =
      create_cylindrical_voi nx ny nz zone pet vs volume_ml W x y z :=
  ⟨rfl, rfl⟩

/-- C6 counterexample: at voxel spacing (5, 5, 5/2) mm, target volume
19/32 mL and width 3, the exact voxel budget is 19/2 = 9.5; the code first
truncates it to 9 and selects 1 slice, while the claimed formula
`ceil((V·1000/voxel_volume) / W²)` gives 2. -/
theorem slice_count_counterexample :
    nSlicesNeeded (5, 5, 5 / 2) (19 / 32) 3 = 1 ∧
      specSliceCount (5, 5, 5 / 2) (19 / 32) 3 = 2 := by
  refine ⟨by with_unfolding_all decide, by with_unfolding_all decide⟩

/-- C6 as amended: the slice count is
`max(1, ceil(floor(V·1000/voxel_volume) / W²))` — the voxel budget is
truncated to an integer before the ceiling division — and the window start is
`argmax(moving-average-smoothed in-zone median-uptake profile) − n // 2`. -/
theorem slice_count_amended (vs : ℚ × ℚ × ℚ) (V : ℚ) (W : Nat)
    (hV : 0 ≤ V) (hvol : 0 < voxelVolume vs) :
    nSlicesNeeded vs V W =
        max 1 ⌈(⌊V * 1000 / voxelVolume vs⌋ : ℚ) / ((W : ℚ) ^ 2)⌉ ∧
      ∀ nx ny nz zone pet n, startSlice nx ny nz zone pet n =
        (npArgmax (uniformFilter n (medianProfile nx ny nz zone pet)) : ℤ) -
          ((n / 2 : Nat) : ℤ) := by
  constructor
  · have h0 : 0 ≤ V * 1000 / voxelVolume vs := by positivity
    unfold nSlicesNeeded targetVoxels pyInt
    rw [if_neg (not_lt.mpr h0)]
  · intro nx ny nz zone pet n
    rfl

/-- C6 witness: the amended placement formulas hold at unit spacing,
1 mL target and width 3. -/
theorem slice_count_amended_witness :
    0 ≤ (1 : ℚ) ∧ 0 < voxelVolume (1, 1, 1) ∧
      (nSlicesNeeded (1, 1, 1) 1 3 =
          max 1 ⌈(⌊(1 : ℚ) * 1000 / voxelVolume (1, 1, 1)⌋ : ℚ) / ((3 : ℚ) ^ 2)⌉ ∧
        ∀ nx ny nz zone pet n, startSlice nx ny nz zone pet n =
          (npArgmax (uniformFilter n (medianProfile nx ny nz zone pet)) : ℤ) -
            ((n / 2 : Nat) : ℤ)) :=
  ⟨by norm_num, by norm_num [voxelVolume],
    slice_count_amended (1, 1, 1) 1 3 (by norm_num) (by norm_num [voxelVolume])⟩

/-- C10: on a 1 × 1 × 5 column zone whose uptake peaks at axial slice 0 with
a 2-slice window, `start_slice` is −1; the seed loop then indexes the volume
with the negative index −1, which wraps to the opposite end of the axis, so
the VOI contains the top slice `z = 4` (and slice 0) but not slice 1 — the
window is neither clamped to the array bounds nor rejected. -/
theorem negative_start_wraps_to_high_end :
    startSlice 1 1 5 zoneColumn petPeak
        ((nSlicesNeeded (1, 1, 1) (3 / 250) 3).toNat) = -1 ∧
      create_cylindrical_voi 1 1 5 zoneColumn petPeak (1, 1, 1) (3 / 250) 3 0 0 4 = true ∧
      create_cylindrical_voi 1 1 5 zoneColumn petPeak (1, 1, 1) (3 / 250) 3 0 0 0 = true ∧
      create_cylindrical_voi 1 1 5 zoneColumn petPeak (1, 1, 1) (3 / 250) 3 0 0 1 = false := by
  refine ⟨by with_unfolding_all decide, by with_unfolding_all decide,
    by with_unfolding_all decide, by with_unfolding_all decide⟩

/-- C8 counterexample: on a fully labelled 1 × 1 × 3 volume with activities
2, 3, 4 the median labelled activity is 3 and the threshold 2/3·3 = 2; the
voxel with activity exactly 2 is not strictly below the threshold, yet the
code relabels it background. -/
theorem refine_threshold_counterexample :
    refine_aorta_with_pet_uptake 1 1 3 aortaAllOnes petRamp 0 0 0 = 0 ∧
      aortaAllOnes 0 0 0 ≠ 0 ∧
      ¬(petRamp 0 0 0 < 2 / 3 * npMedian (labeledPetVals 1 1 3 aortaAllOnes petRamp)) := by
  refine ⟨by with_unfolding_all decide, by decide, by with_unfolding_all decide⟩

/-- C8 as amended: the refinement relabels to background exactly those
voxels whose activity is at or below two-thirds of the median activity over
all labelled voxels, and every other voxel keeps its prior class. -/
theorem refine_amended (nx ny nz : Nat) (aorta : Nat → Nat → Nat → Nat)
    (pet : Nat → Nat → Nat → ℚ)
    (_hne : labeledPetVals nx ny nz aorta pet ≠ []) :
    ∀ x y z, refine_aorta_with_pet_uptake nx ny nz aorta pet x y z =
      if pet x y z ≤ 2 / 3 * npMedian (labeledPetVals nx ny nz aorta pet) then 0
      else aorta x y z := by
  intro x y z
  unfold refine_aorta_with_pet_uptake
  rcases le_or_lt (pet x y z) (2 / 3 * npMedian (labeledPetVals nx ny nz aorta pet)) with h | h
  · rw [if_neg (not_lt.mpr h), if_pos h]
  · rw [if_pos h, if_neg (not_le.mpr h)]

/-- C8 witness: the amended refinement rule at the concrete ramp input. -/
theorem refine_amended_witness :
    labeledPetVals 1 1 3 aortaAllOnes petRamp ≠ [] ∧
      ∀ x y z, refine_aorta_with_pet_uptake 1 1 3 aortaAllOnes petRamp x y z =
        if petRamp x y z ≤ 2 / 3 * npMedian (labeledPetVals 1 1 3 aortaAllOnes petRamp)
        then 0 else aortaAllOnes x y z :=
  ⟨by with_unfolding_all decide, refine_amended 1 1 3 aortaAllOnes petRamp (by with_unfolding_all decide)⟩

/-- Flood fill never overwrites an existing nonzero label. -/
theorem floodFill_preserve (mask : Nat × Nat × Nat → Bool) (cur : Nat) :
    ∀ (fuel : Nat) (stack : List (Nat × Nat × Nat)) (lab : Nat × Nat × Nat → Nat)
      (w : Nat × Nat × Nat), lab w ≠ 0 → floodFill mask cur fuel stack lab w = lab w := by
  intro fuel
  induction fuel with
  | zero => intro stack lab w _; rfl
  | succ n ih =>
    intro stack lab w hw
    cases stack with
    | nil => rfl
    | cons v rest =>
      by_cases h : (mask v && (lab v == 0)) = true
      · have hv : lab v = 0 := by
          have h2 := (Bool.and_eq_true _ _).mp h
          simpa using h2.2
        have hwv : w ≠ v := fun e => hw (e ▸ hv)
        have hl : (fun u => if u = v then cur else lab u) w = lab w := by simp [hwv]
        have hw2 : (fun u => if u = v then cur else lab u) w ≠ 0 := by
          simpa [hwv] using hw
        calc floodFill mask cur (n + 1) (v :: rest) lab w
            = floodFill mask cur n (nbrs6 v ++ rest)
                (fun u => if u = v then cur else lab u) w := by
              simp only [floodFill, if_pos h]
          _ = lab w := by rw [ih _ _ _ hw2]; exact hl
      · calc floodFill mask cur (n + 1) (v :: rest) lab w
            = floodFill mask cur n rest lab w := by simp only [floodFill, if_neg h]
          _ = lab w := ih _ _ _ hw

/-- Any label changed by a flood fill is changed to `cur`, and only on a
foreground cell. -/
theorem floodFill_change (mask : Nat × Nat × Nat → Bool) (cur : Nat) (hcur : cur ≠ 0) :
    ∀ (fuel : Nat) (stack : List (Nat × Nat × Nat)) (lab : Nat × Nat × Nat → Nat)
      (w : Nat × Nat × Nat), floodFill mask cur fuel stack lab w ≠ lab w →
        mask w = true ∧ floodFill mask cur fuel stack lab w = cur := by
  intro fuel
  induction fuel with
  | zero => intro stack lab w hw; exact absurd rfl hw
  | succ n ih =>
    intro stack lab w hw
    cases stack with
    | nil => exact absurd rfl hw
    | cons v rest =>
      by_cases h : (mask v && (lab v == 0)) = true
      · have hm : mask v = true := ((Bool.and_eq_true _ _).mp h).1
        have heq : floodFill mask cur (n + 1) (v :: rest) lab
            = floodFill mask cur n (nbrs6 v ++ rest)
                (fun u => if u = v then cur else lab u) := by
          simp only [floodFill, if_pos h]
        rw [heq] at hw ⊢
        by_cases hwv : w = v
        · subst hwv
          have hl : (fun u => if u = w then cur else lab u) w = cur := by simp
          have hw2 : (fun u => if u = w then cur else lab u) w ≠ 0 := by
            simpa using hcur
          have : floodFill mask cur n (nbrs6 w ++ rest)
              (fun u => if u = w then cur else lab u) w = cur := by
            rw [floodFill_preserve mask cur n _ _ w hw2]; exact hl
          exact ⟨hm, this⟩
        · have hl : (fun u => if u = v then cur else lab u) w = lab w := by simp [hwv]
          rcases ih (nbrs6 v ++ rest) (fun u => if u = v then cur else lab u) w
              (fun e => hw (by rw [e]; exact hl)) with ⟨hma, hvala⟩
          exact ⟨hma, hvala⟩
      · have heq : floodFill mask cur (n + 1) (v :: rest) lab
            = floodFill mask cur n rest lab := by simp only [floodFill, if_neg h]
        rw [heq] at hw ⊢
        exact ih _ _ _ hw

/-- A flood fill started at a foreground cell leaves that cell nonzero. -/
theorem floodFill_seed (mask : Nat × Nat × Nat → Bool) (cur : Nat) (hcur : cur ≠ 0)
    (fuel : Nat) (stack : List (Nat × Nat × Nat)) (lab : Nat × Nat × Nat → Nat)
    (v : Nat × Nat × Nat) (hm : mask v = true) :
    floodFill mask cur (fuel + 1) (v :: stack) lab v ≠ 0 := by
  by_cases h : (mask v && (lab v == 0)) = true
  · have heq : floodFill mask cur (fuel + 1) (v :: stack) lab
        = floodFill mask cur fuel (nbrs6 v ++ stack)
            (fun u => if u = v then cur else lab u) := by
      simp only [floodFill, if_pos h]
    have hw2 : (fun u => if u = v then cur else lab u) v ≠ 0 := by
      simpa using hcur
    rw [heq, floodFill_preserve mask cur fuel _ _ v hw2]
    simpa using hcur
  · have hnz : lab v ≠ 0 := by
      intro e
      exact h (by simp [hm, e])
    have heq : floodFill mask cur (fuel + 1) (v :: stack) lab
        = floodFill mask cur fuel stack lab := by simp only [floodFill, if_neg h]
    rw [heq, floodFill_preserve mask cur fuel _ _ v hnz]
    exact hnz

/-- The component count of the labeling scan never decreases. -/
theorem labelScan_count_mono (mask : Nat × Nat × Nat → Bool) (fuel : Nat) :
    ∀ (l : List (Nat × Nat × Nat)) (cnt : Nat) (lab : Nat × Nat × Nat → Nat),
      cnt ≤ (labelScan mask fuel l (cnt, lab)).1 := by
  intro l
  induction l with
  | nil => intro cnt lab; exact Nat.le_refl _
  | cons v rest ih =>
    intro cnt lab
    by_cases h : (mask v && (lab v == 0)) = true
    · have heq : labelScan mask fuel (v :: rest) (cnt, lab)
          = labelScan mask fuel rest (cnt + 1, floodFill mask (cnt + 1) fuel [v] lab) := by
        simp only [labelScan, if_pos h]
      rw [heq]
      exact Nat.le_trans (Nat.le_succ cnt) (ih _ _)
    · have heq : labelScan mask fuel (v :: rest) (cnt, lab)
          = labelScan mask fuel rest (cnt, lab) := by simp only [labelScan, if_neg h]
      rw [heq]
      exact ih _ _

/-- The labeling scan never erases an existing nonzero label. -/
theorem labelScan_preserve (mask : Nat × Nat × Nat → Bool) (fuel : Nat) :
    ∀ (l : List (Nat × Nat × Nat)) (cnt : Nat) (lab : Nat × Nat × Nat → Nat)
      (w : Nat × Nat × Nat), lab w ≠ 0 → (labelScan mask fuel l (cnt, lab)).2 w = lab w := by
  intro l
  induction l with
  | nil => intro cnt lab w _; rfl
  | cons v rest ih =>
    intro cnt lab w hw
    by_cases h : (mask v && (lab v == 0)) = true
    · have heq : labelScan mask fuel (v :: rest) (cnt, lab)
          = labelScan mask fuel rest (cnt + 1, floodFill mask (cnt + 1) fuel [v] lab) := by
        simp only [labelScan, if_pos h]
      have hp : floodFill mask (cnt + 1) fuel [v] lab w = lab w :=
        floodFill_preserve mask (cnt + 1) fuel _ _ w hw
      rw [heq, ih _ _ _ (hp ▸ hw)]
      exact hp
    · have heq : labelScan mask fuel (v :: rest) (cnt, lab)
          = labelScan mask fuel rest (cnt, lab) := by simp only [labelScan, if_neg h]
      rw [heq]
      exact ih _ _ _ hw

/-- Any label changed by the labeling scan sits on a foreground cell. -/
theorem labelScan_change (mask : Nat × Nat × Nat → Bool) (fuel : Nat) :
    ∀ (l : List (Nat × Nat × Nat)) (cnt : Nat) (lab : Nat × Nat × Nat → Nat)
      (w : Nat × Nat × Nat), (labelScan mask fuel l (cnt, lab)).2 w ≠ lab w →
        mask w = true := by
  intro l
  induction l with
  | nil => intro cnt lab w hw; exact absurd rfl hw
  | cons v rest ih =>
    intro cnt lab w hw
    by_cases h : (mask v && (lab v == 0)) = true
    · have heq : labelScan mask fuel (v :: rest) (cnt, lab)
          = labelScan mask fuel rest (cnt + 1, floodFill mask (cnt + 1) fuel [v] lab) := by
        simp only [labelScan, if_pos h]
      rw [heq] at hw
      by_cases e : floodFill mask (cnt + 1) fuel [v] lab w = lab w
      · exact ih _ _ _ (fun e2 => hw (e2.trans e))
      · exact (floodFill_change mask (cnt + 1) (Nat.succ_ne_zero cnt) fuel _ _ w e).1
    · have heq : labelScan mask fuel (v :: rest) (cnt, lab)
          = labelScan mask fuel rest (cnt, lab) := by simp only [labelScan, if_neg h]
      rw [heq] at hw
      exact ih _ _ _ hw

/-- Every label produced by the scan is bounded by the final component count. -/
theorem labelScan_le (mask : Nat × Nat × Nat → Bool) (fuel : Nat) :
    ∀ (l : List (Nat × Nat × Nat)) (cnt : Nat) (lab : Nat × Nat × Nat → Nat),
      (∀ w, lab w ≤ cnt) →
      ∀ w, (labelScan mask fuel l (cnt, lab)).2 w ≤ (labelScan mask fuel l (cnt, lab)).1 := by
  intro l
  induction l with
  | nil => intro cnt lab hinv w; exact hinv w
  | cons v rest ih =>
    intro cnt lab hinv w
    by_cases h : (mask v && (lab v == 0)) = true
    · have heq : labelScan mask fuel (v :: rest) (cnt, lab)
          = labelScan mask fuel rest (cnt + 1, floodFill mask (cnt + 1) fuel [v] lab) := by
        simp only [labelScan, if_pos h]
      rw [heq]
      refine ih _ _ (fun u => ?_) w
      by_cases e : floodFill mask (cnt + 1) fuel [v] lab u = lab u
      · exact e ▸ Nat.le_trans (hinv u) (Nat.le_succ cnt)
      · exact Nat.le_of_eq (floodFill_change mask (cnt + 1) (Nat.succ_ne_zero cnt) fuel _ _ u e).2
    · have heq : labelScan mask fuel (v :: rest) (cnt, lab)
          = labelScan mask fuel rest (cnt, lab) := by simp only [labelScan, if_neg h]
      rw [heq]
      exact ih _ _ hinv w

/-- Every foreground cell of the scanned list ends up labelled. -/
theorem labelScan_cover (mask : Nat × Nat × Nat → Bool) (fuel : Nat) (hf : fuel ≠ 0) :
    ∀ (l : List (Nat × Nat × Nat)) (cnt : Nat) (lab : Nat × Nat × Nat → Nat)
      (v : Nat × Nat × Nat), v ∈ l → mask v = true →
        (labelScan mask fuel l (cnt, lab)).2 v ≠ 0 := by
  obtain ⟨n, rfl⟩ : ∃ n, fuel = n + 1 := Nat.exists_eq_succ_of_ne_zero hf
  intro l
  induction l with
  | nil => intro cnt lab v hv _; exact absurd hv (List.not_mem_nil v)
  | cons u rest ih =>
    intro cnt lab v hv hm
    rcases List.mem_cons.mp hv with rfl | hv2
    · by_cases h : (mask v && (lab v == 0)) = true
      · have heq : labelScan mask (n + 1) (v :: rest) (cnt, lab)
            = labelScan mask (n + 1) rest
                (cnt + 1, floodFill mask (cnt + 1) (n + 1) [v] lab) := by
          simp only [labelScan, if_pos h]
        have hseed : floodFill mask (cnt + 1) (n + 1) [v] lab v ≠ 0 :=
          floodFill_seed mask (cnt + 1) (Nat.succ_ne_zero cnt) n [] lab v hm
        rw [heq, labelScan_preserve mask (n + 1) rest _ _ v hseed]
        exact hseed
      · have hnz : lab v ≠ 0 := by
          intro e
          exact h (by simp [hm, e])
        have heq : labelScan mask (n + 1) (v :: rest) (cnt, lab)
            = labelScan mask (n + 1) rest (cnt, lab) := by simp only [labelScan, if_neg h]
        rw [heq, labelScan_preserve mask (n + 1) rest _ _ v hnz]
        exact hnz
    · by_cases h : (mask u && (lab u == 0)) = true
      · have heq : labelScan mask (n + 1) (u :: rest) (cnt, lab)
            = labelScan mask (n + 1) rest
                (cnt + 1, floodFill mask (cnt + 1) (n + 1) [u] lab) := by
          simp only [labelScan, if_pos h]
        rw [heq]
        exact ih _ _ v hv2 hm
      · have heq : labelScan mask (n + 1) (u :: rest) (cnt, lab)
            = labelScan mask (n + 1) rest (cnt, lab) := by simp only [labelScan, if_neg h]
        rw [heq]
        exact ih _ _ v hv2 hm

/-- In-bounds coordinates are listed in `allCells`. -/
theorem mem_allCells {nx ny nz x y z : Nat} (hx : x < nx) (hy : y < ny) (hz : z < nz) :
    (x, y, z) ∈ allCells nx ny nz := by
  unfold allCells
  refine List.mem_flatMap.mpr ⟨x, List.mem_range.mpr hx, ?_⟩
  refine List.mem_flatMap.mpr ⟨y, List.mem_range.mpr hy, ?_⟩
  exact List.mem_map.mpr ⟨z, List.mem_range.mpr hz, rfl⟩

/-- Every label of `labelVolume` is bounded by the returned component count. -/
theorem labelVolume_le (nx ny nz : Nat) (f : Nat → Nat → Nat → Nat)
    (v : Nat × Nat × Nat) :
    (labelVolume nx ny nz f).2 v ≤ (labelVolume nx ny nz f).1 :=
  labelScan_le _ _ _ _ _ (fun _ => Nat.le_refl 0) v

/-- A voxel receives a nonzero component label exactly when it is an
in-bounds foreground voxel. -/
theorem labelVolume_ne_zero_iff (nx ny nz : Nat) (f : Nat → Nat → Nat → Nat)
    (v : Nat × Nat × Nat) :
    (labelVolume nx ny nz f).2 v ≠ 0 ↔ cellMask nx ny nz f v = true := by
  constructor
  · intro hv
    exact labelScan_change _ _ _ _ _ v hv
  · intro hm
    have hb : v.1 < nx ∧ v.2.1 < ny ∧ v.2.2 < nz := by
      have h1 := (Bool.and_eq_true _ _).mp hm
      have h2 := (Bool.and_eq_true _ _).mp h1.1
      have h3 := (Bool.and_eq_true _ _).mp h2.1
      exact ⟨of_decide_eq_true h3.1, of_decide_eq_true h3.2, of_decide_eq_true h2.2⟩
    have hmem : v ∈ allCells nx ny nz := by
      obtain ⟨a, b, c⟩ := v
      exact mem_allCells hb.1 hb.2.1 hb.2.2
    exact labelScan_cover _ _ (Nat.succ_ne_zero _) _ _ _ v hmem hm

/-- The foreground predicate of the pre-curve volume at an in-bounds voxel
below the curve boundary is exactly nonzero-ness of the input mask. -/
theorem cellMask_preCurve (nx ny nz : Nat) (aorta : Nat → Nat → Nat → Nat)
    (ixc x y z : Nat) (hx : x < nx) (hy : y < ny) (hz : z < nz) (hzc : z < ixc) :
    (cellMask nx ny nz (preCurve aorta ixc) (x, y, z) = true) ↔ aorta x y z ≠ 0 := by
  simp [cellMask, preCurve, hx, hy, hz, Nat.not_le.mpr hzc]

/-- The size-based mapping sends component label 0 (background) to 0. -/
theorem segMapping_zero (s1 s2 : Nat) : segMapping s1 s2 0 = 0 := by
  unfold segMapping
  split <;> rfl

/-- The size-based mapping sends 0 to 0 and components 1 and 2 to the codes
ASCENDING (1) and DESCENDING (3). -/
theorem segMapping_mem (s1 s2 l : Nat) (hl : l = 1 ∨ l = 2) :
    segMapping s1 s2 l = 1 ∨ segMapping s1 s2 l = 3 := by
  unfold segMapping
  rcases hl with rfl | rfl <;> split <;> simp

/-- C1: for a binary mask on which boundary detection succeeds and whose
pre-curve sub-volume has exactly two connected components, `segment_aorta`
returns a volume every in-bounds voxel of which carries a code in
{0, 1, 2, 3, 4}, the four labelled regions are pairwise disjoint (a voxel
carries at most one code), and their union is exactly the set of nonzero
voxels of the input mask. -/
theorem segment_aorta_partition (nx ny nz : Nat) (aorta : Nat → Nat → Nat → Nat)
    (ixs ixc : Nat)
    (hbin : ∀ x < nx, ∀ y < ny, ∀ z < nz, aorta x y z ≤ 1)
    (hb : find_aortic_segments_boundaries nx ny nz aorta = .ok (ixs, ixc))
    (h2 : (labelVolume nx ny nz (preCurve aorta ixc)).1 = 2) :
    segment_aorta nx ny nz aorta = .ok (segmentCore nx ny nz aorta ixs ixc) ∧
    ∀ x y z, x < nx → y < ny → z < nz →
      segmentCore nx ny nz aorta ixs ixc x y z ≤ 4 ∧
      (segmentCore nx ny nz aorta ixs ixc x y z ≠ 0 ↔ aorta x y z ≠ 0) ∧
      ∀ a b, segmentCore nx ny nz aorta ixs ixc x y z = a →
        segmentCore nx ny nz aorta ixs ixc x y z = b → a = b := by
  constructor
  · unfold segment_aorta
    rw [hb]
    rfl
  · intro x y z hx hy hz
    refine ⟨?_, ?_, fun a b ha hb2 => ha ▸ hb2⟩ <;>
      simp only [segmentCore] <;>
      by_cases hzc : ixc ≤ z
    · -- bound, TOP side
      have ha := hbin x hx y hy z hz
      rw [if_pos hzc]
      split <;> omega
    · -- bound, pre-curve side
      rw [if_neg hzc]
      have hle : (labelVolume nx ny nz (preCurve aorta ixc)).2 (x, y, z) ≤ 2 :=
        h2 ▸ labelVolume_le nx ny nz (preCurve aorta ixc) (x, y, z)
      have hl : (labelVolume nx ny nz (preCurve aorta ixc)).2 (x, y, z) = 0 ∨
          (labelVolume nx ny nz (preCurve aorta ixc)).2 (x, y, z) = 1 ∨
          (labelVolume nx ny nz (preCurve aorta ixc)).2 (x, y, z) = 2 := by omega
      rcases hl with hl | hl
      · rw [hl, segMapping_zero]
        split <;> omega
      · rcases segMapping_mem (countLabelVal nx ny nz (labelVolume nx ny nz
            (preCurve aorta ixc)).2 1) (countLabelVal nx ny nz (labelVolume nx ny nz
            (preCurve aorta ixc)).2 2) _ hl with hm | hm <;> rw [hm] <;> split <;> omega
    · -- union, TOP side
      have ha := hbin x hx y hy z hz
      rw [if_pos hzc]
      have hnottri : ¬(aorta x y z * 2 = 3 ∧ z < ixs) := by omega
      rw [if_neg hnottri]
      omega
    · -- union, pre-curve side
      rw [if_neg hzc]
      have hiff := (labelVolume_ne_zero_iff nx ny nz (preCurve aorta ixc) (x, y, z)).trans
        (cellMask_preCurve nx ny nz aorta ixc x y z hx hy hz (Nat.not_le.mp hzc))
      have hle : (labelVolume nx ny nz (preCurve aorta ixc)).2 (x, y, z) ≤ 2 :=
        h2 ▸ labelVolume_le nx ny nz (preCurve aorta ixc) (x, y, z)
      have hl : (labelVolume nx ny nz (preCurve aorta ixc)).2 (x, y, z) = 0 ∨
          (labelVolume nx ny nz (preCurve aorta ixc)).2 (x, y, z) = 1 ∨
          (labelVolume nx ny nz (preCurve aorta ixc)).2 (x, y, z) = 2 := by omega
      rcases hl with hl | hl
      · have haz : ¬aorta x y z ≠ 0 := fun hne => (hiff.mpr hne) hl
        rw [hl, segMapping_zero]
        simp only [if_neg (by omega : ¬((0 : Nat) = 3 ∧ z < ixs))]
        omega
      · have haz : aorta x y z ≠ 0 := hiff.mp (by omega)
        rcases segMapping_mem (countLabelVal nx ny nz (labelVolume nx ny nz
            (preCurve aorta ixc)).2 1) (countLabelVal nx ny nz (labelVolume nx ny nz
            (preCurve aorta ixc)).2 2) _ hl with hm | hm <;> rw [hm] <;> split <;>
          simp [haz]

/-- C1 witness: the J-shaped mask satisfies all three hypotheses with
boundary indices (5, 10) and the partition conclusion holds on it. -/
theorem segment_aorta_partition_witness :
    (∀ x < 3, ∀ y < 1, ∀ z < 15, aortaJ x y z ≤ 1) ∧
    find_aortic_segments_boundaries 3 1 15 aortaJ = .ok (5, 10) ∧
    (labelVolume 3 1 15 (preCurve aortaJ 10)).1 = 2 ∧
    (segment_aorta 3 1 15 aortaJ = .ok (segmentCore 3 1 15 aortaJ 5 10) ∧
      ∀ x y z, x < 3 → y < 1 → z < 15 →
        segmentCore 3 1 15 aortaJ 5 10 x y z ≤ 4 ∧
        (segmentCore 3 1 15 aortaJ 5 10 x y z ≠ 0 ↔ aortaJ x y z ≠ 0) ∧
        ∀ a b, segmentCore 3 1 15 aortaJ 5 10 x y z = a →
          segmentCore 3 1 15 aortaJ 5 10 x y z = b → a = b) :=
  ⟨by decide, by with_unfolding_all rfl, by with_unfolding_all rfl,
    segment_aorta_partition 3 1 15 aortaJ 5 10 (by decide)
      (by with_unfolding_all rfl) (by with_unfolding_all rfl)⟩

/-- Value of `getD` on a mapped range at an in-range index. -/
theorem getD_range_map {α : Type} (f : Nat → α) (n i : Nat) (d : α) (h : i < n) :
    ((List.range n).map f).getD i d = f i := by
  rw [List.getD_eq_getElem?_getD, List.getElem?_map, List.getElem?_range h]
  rfl

/-- Value of `getD` on a mapped list at an in-range index. -/
theorem getD_map_of_lt {α β : Type} (l : List α) (g : α → β) (i : Nat) (d1 : α) (d2 : β)
    (h : i < l.length) : (l.map g).getD i d2 = g (l.getD i d1) := by
  have hl : i < (l.map g).length := by simpa using h
  rw [List.getD_eq_getElem _ _ hl, List.getElem_map, List.getD_eq_getElem _ _ h]

/-- Value of `getD` after a `drop`. -/
theorem getD_drop_eq {α : Type} (l : List α) (m i : Nat) (d : α) :
    (l.drop m).getD i d = l.getD (m + i) d := by
  rw [List.getD_eq_getElem?_getD, List.getElem?_drop, ← List.getD_eq_getElem?_getD]

/-- Value of `getD` on a `zipWith` at an index below both lengths. -/
theorem getD_zipWith_of_lt {α β γ : Type} (f : α → β → γ) (l1 : List α) (l2 : List β)
    (i : Nat) (d1 : α) (d2 : β) (d3 : γ) (h1 : i < l1.length) (h2 : i < l2.length) :
    (List.zipWith f l1 l2).getD i d3 = f (l1.getD i d1) (l2.getD i d2) := by
  have hl : i < (List.zipWith f l1 l2).length := by rw [List.length_zipWith]; omega
  rw [List.getD_eq_getElem _ _ hl, List.getElem_zipWith, List.getD_eq_getElem _ _ h1,
    List.getD_eq_getElem _ _ h2]

/-- The reshaped voxel × frame matrix has one row per voxel. -/
theorem patlakRows_length (sx sy sz T : Nat) (arr : Nat → Nat → Nat → Nat → ℚ) :
    (patlakRows sx sy sz T arr).length = sx * sy * sz := by
  simp [patlakRows]

/-- The transposed matrix has one row per frame. -/
theorem patlakCols_length (sx sy sz T : Nat) (arr : Nat → Nat → Nat → Nat → ℚ) :
    (patlakCols sx sy sz T arr).length = T := by
  simp [patlakCols]

/-- The normalized response matrix has one row per trailing frame. -/
theorem patlakY_length (sx sy sz T : Nat) (arr : Nat → Nat → Nat → Nat → ℚ)
    (input_fun : List ℚ) (K : Nat) (hin : input_fun.length = T) (hKT : K ≤ T) :
    (patlakY sx sy sz T arr input_fun K).length = K := by
  unfold patlakY lastK
  rw [List.length_zipWith, List.length_drop, List.length_drop, patlakCols_length, hin]
  omega

/-- C-order flat-index arithmetic: unflattening `(x·sy + y)·sz + z` recovers
`(x, y, z)`, and the flat index is below the voxel count. -/
theorem flatIndex_arith (sx sy sz x y z : Nat) (hx : x < sx) (hy : y < sy) (hz : z < sz) :
    ((x * sy + y) * sz + z) / (sy * sz) = x ∧
    ((x * sy + y) * sz + z) / sz % sy = y ∧
    ((x * sy + y) * sz + z) % sz = z ∧
    (x * sy + y) * sz + z < sx * sy * sz := by
  have hsy : 0 < sy := by omega
  have hsz : 0 < sz := by omega
  have hdiv1 : ((x * sy + y) * sz + z) / sz = x * sy + y := by
    rw [show (x * sy + y) * sz + z = z + sz * (x * sy + y) by ring,
      Nat.add_mul_div_left _ _ hsz, Nat.div_eq_of_lt hz, Nat.zero_add]
  have hmod2 : (x * sy + y) % sy = y := by
    rw [show x * sy + y = y + sy * x by ring, Nat.add_mul_mod_self_left,
      Nat.mod_eq_of_lt hy]
  have hlt2 : y * sz + z < sy * sz := by
    calc y * sz + z < y * sz + sz := by omega
    _ = (y + 1) * sz := by ring
    _ ≤ sy * sz := mul_le_mul_right' hy sz
  refine ⟨?_, ?_, ?_, ?_⟩
  · rw [show (x * sy + y) * sz + z = (y * sz + z) + (sy * sz) * x by ring,
      Nat.add_mul_div_left _ _ (Nat.mul_pos hsy hsz), Nat.div_eq_of_lt hlt2, Nat.zero_add]
  · rw [hdiv1]
    exact hmod2
  · rw [show (x * sy + y) * sz + z = z + sz * (x * sy + y) by ring,
      Nat.add_mul_mod_self_left, Nat.mod_eq_of_lt hz]
  · calc (x * sy + y) * sz + z < (x * sy + y) * sz + sz := by omega
    _ = (x * sy + y + 1) * sz := by ring
    _ ≤ sx * sy * sz := mul_le_mul_right' (by
        calc x * sy + y + 1 ≤ x * sy + sy := by omega
        _ = (x + 1) * sy := by ring
        _ ≤ sx * sy := mul_le_mul_right' hx sy) sz

/-- Column `v` of the normalized response matrix is the trailing-`K` time
series of the voxel with flat index `v`, divided pointwise by the trailing
input-function values. -/
theorem patlakY_column (sx sy sz T : Nat) (arr : Nat → Nat → Nat → Nat → ℚ)
    (input_fun : List ℚ) (K : Nat) (v : Nat) (hv : v < sx * sy * sz)
    (hin : input_fun.length = T) (hKT : K ≤ T) :
    ((patlakY sx sy sz T arr input_fun K).map fun r => r.getD v 0) =
      List.zipWith (fun a b => a / b)
        (lastK K ((List.range T).map fun k => arr (v / (sy * sz)) (v / sz % sy) (v % sz) k))
        (lastK K input_fun) := by
  have hA : ((patlakCols sx sy sz T arr).drop (T - K)).length = K := by
    rw [List.length_drop, patlakCols_length]; omega
  have hB : (lastK K input_fun).length = K := by
    unfold lastK; rw [List.length_drop, hin]; omega
  have hser : (lastK K ((List.range T).map fun k =>
      arr (v / (sy * sz)) (v / sz % sy) (v % sz) k)).length = K := by
    unfold lastK; rw [List.length_drop]; simp; omega
  apply List.ext_getElem
  · rw [List.length_map, patlakY_length sx sy sz T arr input_fun K hin hKT,
      List.length_zipWith, hser, hB]
    omega
  · intro i h1 h2
    have hiK : i < K := by
      rw [List.length_map, patlakY_length sx sy sz T arr input_fun K hin hKT] at h1
      exact h1
    rw [← List.getD_eq_getElem _ 0 h1, ← List.getD_eq_getElem _ 0 h2]
    have hYlen : i < (patlakY sx sy sz T arr input_fun K).length := by
      rw [patlakY_length sx sy sz T arr input_fun K hin hKT]; exact hiK
    rw [getD_map_of_lt _ _ i [] 0 hYlen]
    unfold patlakY
    rw [getD_zipWith_of_lt _ _ _ i [] 0 _ (by rw [hA]; exact hiK) (by rw [hB]; exact hiK)]
    rw [getD_drop_eq]
    unfold patlakCols
    rw [getD_range_map _ _ _ _ (by omega : T - K + i < T)]
    have hvrows : v < (patlakRows sx sy sz T arr).length := by
      rw [patlakRows_length]; exact hv
    have hvmap : v < ((patlakRows sx sy sz T arr).map fun r => r.getD (T - K + i) 0).length := by
      simpa using hvrows
    rw [getD_map_of_lt _ _ v 0 0 hvmap, getD_map_of_lt _ _ v [] 0 hvrows]
    unfold patlakRows
    rw [getD_range_map _ _ _ _ hv, getD_range_map _ _ _ _ (by omega : T - K + i < T)]
    unfold lastK
    rw [getD_zipWith_of_lt _ _ _ i 0 0 _ (by rw [List.length_drop]; simp; omega)
      (by rw [List.length_drop, hin]; omega)]
    rw [getD_drop_eq, getD_drop_eq, hin]
    rw [List.length_map, List.length_range]
    rw [getD_range_map _ _ _ _ (by omega : T - K + i < T)]

/-- C7: each voxel of the slope volume returned by `_voxel_patlak_chunk` is
the OLS slope of that voxel's trailing-`K` normalized activity against the
normalized cumulative-Simpson integral of the input function (time scaled to
minutes), and the slope volume has the spatial shape of one static frame. -/
theorem voxel_patlak_chunk_spec (sx sy sz T : Nat) (arr : Nat → Nat → Nat → Nat → ℚ)
    (input_fun t : List ℚ) (K : Nat) (x y z : Nat)
    (hx : x < sx) (hy : y < sy) (hz : z < sz) (hKT : K ≤ T)
    (hin : input_fun.length = T) :
    ((voxel_patlak_chunk sx sy sz T arr input_fun t K).1.length = sx ∧
      ∀ p ∈ (voxel_patlak_chunk sx sy sz T arr input_fun t K).1,
        p.length = sy ∧ ∀ q ∈ p, q.length = sz) ∧
    ((((voxel_patlak_chunk sx sy sz T arr input_fun t K).1.getD x []).getD y []).getD z 0 =
      olsSlope
        (lastK K (List.zipWith (fun a b => a / b)
          (cumulative_simpson input_fun (t.map fun s => s / 60)) input_fun))
        (List.zipWith (fun a b => a / b)
          (lastK K ((List.range T).map fun k => arr x y z k)) (lastK K input_fun))) := by
  obtain ⟨e1, e2, e3, hvN⟩ := flatIndex_arith sx sy sz x y z hx hy hz
  constructor
  · constructor
    · simp [voxel_patlak_chunk]
    · intro p hp
      simp only [voxel_patlak_chunk, List.mem_map, List.mem_range] at hp
      obtain ⟨a, _, rfl⟩ := hp
      refine ⟨by simp, ?_⟩
      intro q hq
      simp only [List.mem_map, List.mem_range] at hq
      obtain ⟨b, _, rfl⟩ := hq
      simp
  · simp only [voxel_patlak_chunk]
    rw [getD_range_map _ _ _ _ hx, getD_range_map _ _ _ _ hy, getD_range_map _ _ _ _ hz,
      getD_range_map _ _ _ _ hvN]
    rw [patlakY_column sx sy sz T arr input_fun K _ hvN hin hKT]
    rw [e1, e2, e3]
    rfl

/-- The concrete 1 × 1 × 1 × 4 chunk used by the C7 witness. -/
def arrRamp : Nat → Nat → Nat → Nat → ℚ := fun _ _ _ k => (k : ℚ) + 1

/-- Constant input function over four frames. -/
def inputOnes4 : List ℚ := [1, 1, 1, 1]

/-- Frame times 0, 60, 120, 180 seconds. -/
def tFour : List ℚ := [0, 60, 120, 180]

/-- C7 witness: the per-voxel slope and shape property at a concrete
1 × 1 × 1 chunk of four frames with trailing-2 regression. -/
theorem voxel_patlak_chunk_spec_witness :
    0 < 1 ∧ 2 ≤ 4 ∧ inputOnes4.length = 4 ∧
    (((voxel_patlak_chunk 1 1 1 4 arrRamp inputOnes4 tFour 2).1.length = 1 ∧
      ∀ p ∈ (voxel_patlak_chunk 1 1 1 4 arrRamp inputOnes4 tFour 2).1,
        p.length = 1 ∧ ∀ q ∈ p, q.length = 1) ∧
    ((((voxel_patlak_chunk 1 1 1 4 arrRamp inputOnes4 tFour 2).1.getD 0 []).getD 0 []).getD 0 0 =
      olsSlope
        (lastK 2 (List.zipWith (fun a b => a / b)
          (cumulative_simpson inputOnes4 (tFour.map fun s => s / 60)) inputOnes4))
        (List.zipWith (fun a b => a / b)
          (lastK 2 ((List.range 4).map fun k => arrRamp 0 0 0 k)) (lastK 2 inputOnes4)))) :=
  ⟨by decide, by decide, by decide,
    voxel_patlak_chunk_spec 1 1 1 4 arrRamp inputOnes4 tFour 2 0 0 0
      (by decide) (by decide) (by decide) (by decide) (by decide)⟩

set_option maxRecDepth 100000 in
/-- C2 (code bug): on the J-shaped mask with unit spacing, uniform activity
and a small target volume, the pipeline succeeds and the returned VOI volume
assigns code 4 (DESCENDING_BOTTOM) to voxel (1, 0, 0), a voxel whose refined
anatomical label is 0 — the cylinder is dilated beyond its zone mask, so VOI
voxels are not a subset of the label's anatomical mask as the documentation
of `create_cylindrical_voi` ("inside the specified aorta segment") and the
spec invariant require. -/
theorem extract_voi_outside_mask :
    (extract_aorta_vois 3 1 15 aortaJ affineId dpetOnes [0] 40 (1 / 128) 3).map
      (fun r => (r.1 1 0 0, r.2 1 0 0)) = Except.ok (4, 0) := by
  with_unfolding_all rfl

end NiftiDynamic
